import Mathlib

/-!
Shallow embedding of the decimals library (rounding and thousands-formatting of
base-ten numbers) and proofs about it.

The integer rounder works on the decimal digit string of its argument, exactly
as the source does: it strips the sign, locates the rounding digit, either
truncates or propagates a carry leftwards through nines, zeroes the tail,
restores the sign and re-parses the digit string with saturation at the int64
bounds.
-/

namespace Decimals

/-- MSB-first decimal digit list of a natural number, as strconv.FormatInt
produces it for the magnitude: a single 0 digit for zero, otherwise the
digits with no leading zeros. -/
def decDigits (n : Nat) : List Nat :=
  if n = 0 then [0] else (Nat.digits 10 n).reverse

/-- Numeric value of an MSB-first digit list: what strconv.ParseInt computes
from the digit string before any range check. -/
def valMSB (L : List Nat) : Nat :=
  Nat.ofDigits 10 L.reverse

/-- math.MaxInt64. -/
def maxInt64 : Int := 9223372036854775807

/-- math.MinInt64. -/
def minInt64 : Int := -9223372036854775808

/-- strconv.ParseInt(s, 10, 64) applied to a decimal string of value v: on a
range error the error is discarded by the caller and the saturated bound is
returned (decimals.go line 124). -/
def parseIntClamp (v : Int) : Int :=
  if v > maxInt64 then maxInt64
  else if v < minInt64 then minInt64
  else v

/-- Restore the sign of x to a digit list and parse it with int64 saturation
(decimals.go lines 116-126). -/
def signParse (x : Int) (L : List Nat) : Int :=
  parseIntClamp (if x < 0 then -(valMSB L : Int) else (valMSB L : Int))

/-- The carry loop of decimals.go lines 86-106, expressed on the rounded-away
slice in least-significant-first order: walking from the rounding position
leftwards, the first digit below nine is incremented and every nine passed on
the way (later zeroed by the zeroFrom loop) becomes zero; if every digit is
nine a leading one is prepended. -/
def incLE : List Nat → List Nat
  | [] => [1]
  | d :: ds => if d < 9 then (d + 1) :: ds else 0 :: incLE ds

/-- RoundInt from decimals.go lines 20-127: round a base ten integer to the
given (negative) power-of-ten precision by rewriting its digit string. -/
def RoundInt (x : Int) (precision : Int) : Int :=
  -- If precision is not negative return x (lines 39-42)
  if precision > -1 then x
  else
    -- digit slice of the magnitude, sign removed (lines 23, 45-48)
    let xslice := decDigits x.natAbs
    -- index of the digit to round from (line 51)
    let roundFrom : Int := (xslice.length : Int) + precision
    -- rounding to more than one order of magnitude larger than x (lines 54-57)
    if roundFrom < 0 then 0
    -- rounding to one order of magnitude larger than x (lines 60-72)
    else if roundFrom = 0 then
      if xslice.headD 0 < 5 then 0
      else signParse x (1 :: List.replicate xslice.length 0)
    -- otherwise round through the slice from right to left (lines 75-107)
    else
      let rf := roundFrom.toNat
      let roundDigit := xslice.getD rf 0
      if roundDigit < 5 then
        -- truncate: zero from the round digit on (lines 81-83, 111-114)
        signParse x (xslice.take rf ++ List.replicate (xslice.length - rf) 0)
      else
        -- carry leftwards, then zero the tail (lines 86-106, 111-114)
        signParse x ((incLE (xslice.take rf).reverse).reverse
          ++ List.replicate (xslice.length - rf) 0)

/-- Round-half-up of a natural number to a multiple of m: the arithmetic
characterisation of the digit rewriting. -/
def roundHalfUp (n m : Nat) : Nat :=
  (n + m / 2) / m * m

/-- The value RoundInt computes before int64 saturation: the magnitude rounded
half-up to a multiple of 10 to the minus precision, with the sign restored. -/
def idealRound (x : Int) (precision : Int) : Int :=
  let m := 10 ^ (-precision).toNat
  if x < 0 then -(roundHalfUp x.natAbs m : Int) else (roundHalfUp x.natAbs m : Int)

/-- The decimal digit byte table of decimals.go line 36. -/
def decimalBytes : List Char := ['0', '1', '2', '3', '4', '5', '6', '7', '8', '9']

/-- A decimal digit rendered as a byte. -/
def digitChar (d : Nat) : Char := decimalBytes.getD d '0'

/-- Decimal character string of a magnitude, as strconv.FormatInt renders it. -/
def decChars (n : Nat) : List Char := (decDigits n).map digitChar

/-- strconv.FormatInt(x, 10) as a character list (decimals.go line 163). -/
def intChars (x : Int) : List Char :=
  if x < 0 then '-' :: decChars x.natAbs else decChars x.natAbs

/-- The comma-inserting copy loops of FormatThousands (decimals.go lines
184-206), expressed on the reversed slice: working from the least-significant
end, copy a batch of three characters then a comma, `commas` times, then copy
whatever remains. -/
def commaRev : List Char → Nat → List Char
  | l, 0 => l
  | l, c + 1 => l.take 3 ++ ',' :: commaRev (l.drop 3) c

/-- FormatThousands from decimals.go lines 151-209: format an int64 with a
comma separator for thousands. -/
def FormatThousands (x : Int) : String :=
  let xslice := intChars x
  let lenx := xslice.length
  -- number of commas, depending on the sign of x (lines 168-178)
  let commas := if x < 0 then (lenx - 2) / 3 else (lenx - 1) / 3
  -- copy right to left in batches of three with commas, then the rest
  String.mk ((commaRev xslice.reverse commas).reverse)

/-- FormatInt from decimals.go lines 213-216. -/
def FormatInt (x : Int) (precision : Int) : String :=
  FormatThousands (RoundInt x precision)

/-- Spec-side comparator for the formatter (spec 4.3): insert the grouping
separator every three digits counted from the least-significant digit, here
phrased on the reversed digit list: while more than three characters remain,
emit three and a comma. -/
def specGroupRev (l : List Char) : List Char :=
  if l.length ≤ 3 then l
  else l.take 3 ++ ',' :: specGroupRev (l.drop 3)
termination_by l.length
decreasing_by
  simp only [List.length_drop]
  omega

/-- Spec-side comparator: the base-ten digit string with a comma every three
digits counted from the least-significant digit, and a leading minus sign
exactly when x is negative. -/
def specFormatThousands (x : Int) : String :=
  String.mk ((if x < 0 then ['-'] else []) ++ (specGroupRev (decChars x.natAbs).reverse).reverse)

/-- Integer part returned by math.Modf: the argument truncated toward zero.
Finite float64 values are modelled by their exact rational values; truncation
of a finite double is an exact operation. -/
def modfTrunc (x : ℚ) : Int :=
  if x < 0 then -(⌊-x⌋) else ⌊x⌋

/-- Nearest integer with exact halves sent to the even neighbour: the rounding
strconv applies at a fixed decimal position. -/
def roundHalfEven (q : ℚ) : Int :=
  if q - ⌊q⌋ < 1 / 2 then ⌊q⌋
  else if 1 / 2 < q - ⌊q⌋ then ⌊q⌋ + 1
  else if ⌊q⌋ % 2 = 0 then ⌊q⌋ else ⌊q⌋ + 1

/-- RoundFloat from decimals.go lines 133-147, on the exact rational value of
the float64 argument. The nonnegative-precision branch stands for the
strconv.FormatFloat / ParseFloat round trip, which rounds the value at the
given decimal place with exact halves to even; binary64 representation error
is outside this model. -/
def RoundFloat (x : ℚ) (precision : Int) : ℚ :=
  -- Handle negative precision with integer rounding (lines 136-140)
  if precision < 0 then ((RoundInt (modfTrunc x) precision : Int) : ℚ)
  -- Handle positive precision with strconv.FormatFloat (lines 143-146)
  else (roundHalfEven (x * 10 ^ precision.toNat) : ℚ) / 10 ^ precision.toNat

end Decimals

namespace Decimals

theorem valMSB_nil : valMSB [] = 0 := rfl

theorem valMSB_decDigits (n : Nat) : valMSB (decDigits n) = n := by
  by_cases h : n = 0
  · simp [h, decDigits, valMSB, Nat.ofDigits]
  · simp [decDigits, h, valMSB, Nat.ofDigits_digits]

theorem decDigits_len_pos (n : Nat) : 0 < (decDigits n).length := by
  by_cases h : n = 0
  · simp [decDigits, h]
  · simpa [decDigits, h] using List.length_pos.mpr (Nat.digits_ne_nil_iff_ne_zero.mpr h)

theorem lt_pow_len (n : Nat) : n < 10 ^ (decDigits n).length := by
  by_cases h : n = 0
  · simp [decDigits, h]
  · simpa [decDigits, h] using Nat.lt_base_pow_length_digits (b := 10) (m := n) (by norm_num)

theorem decDigits_lt (n : Nat) : ∀ d ∈ decDigits n, d < 10 := by
  intro d hd
  by_cases h : n = 0
  · simp [decDigits, h] at hd
    omega
  · rw [decDigits, if_neg h, List.mem_reverse] at hd
    exact Nat.digits_lt_base (by norm_num) hd

theorem valMSB_take (n k : Nat) (hk : k ≤ (decDigits n).length) :
    valMSB ((decDigits n).take ((decDigits n).length - k)) = n / 10 ^ k := by
  by_cases h : n = 0
  · subst h
    simp only [decDigits, if_pos rfl] at hk ⊢
    rcases Nat.le_one_iff_eq_zero_or_eq_one.mp (by simpa using hk) with rfl | rfl
    · simp [valMSB, Nat.ofDigits]
    · simp [valMSB, Nat.ofDigits]
  · rw [decDigits, if_neg h] at hk ⊢
    rw [List.length_reverse] at hk ⊢
    rw [List.take_reverse, Nat.sub_sub_self hk]
    simp only [valMSB, List.reverse_reverse]
    exact (Nat.self_div_pow_eq_ofDigits_drop k n (by norm_num)).symm

theorem valMSB_concat (A : List Nat) (d : Nat) : valMSB (A ++ [d]) = valMSB A * 10 + d := by
  simp only [valMSB, List.reverse_append, List.reverse_cons, List.reverse_nil, List.nil_append,
    List.singleton_append, Nat.ofDigits_cons]
  omega

theorem ofDigits_replicate_zero (k : Nat) : Nat.ofDigits 10 (List.replicate k 0) = 0 := by
  induction k with
  | zero => rfl
  | succ k ih => simp [List.replicate_succ, Nat.ofDigits_cons, ih]

theorem valMSB_append_zeros (A : List Nat) (k : Nat) :
    valMSB (A ++ List.replicate k 0) = valMSB A * 10 ^ k := by
  simp only [valMSB, List.reverse_append, List.reverse_replicate, Nat.ofDigits_append,
    ofDigits_replicate_zero, List.length_replicate]
  ring

theorem getD_decDigits (n k : Nat) (hk1 : 1  ≤ k) (hk : k ≤ (decDigits n).length) :
    (decDigits n).getD ((decDigits n).length - k) 0 = n / 10 ^ (k - 1) % 10 := by
  have hlen : 0 < (decDigits n).length := decDigits_len_pos n
  have hi : (decDigits n).length - k < (decDigits n).length := Nat.sub_lt hlen hk1
  have htake : (decDigits n).take ((decDigits n).length - k + 1)
      = (decDigits n).take ((decDigits n).length - k)
        ++ [(decDigits n).get ⟨(decDigits n).length - k, hi⟩] := by
    rw [List.take_succ]
    simp [List.getElem?_eq_getElem hi]
  have hidx : (decDigits n).length - k + 1 = (decDigits n).length - (k - 1) := by omega
  have h1 : valMSB ((decDigits n).take ((decDigits n).length - (k - 1))) = n / 10 ^ (k - 1) :=
    valMSB_take n (k - 1) (by omega)
  rw [← hidx, htake, valMSB_concat, valMSB_take n k hk] at h1
  have hdd : n / 10 ^ (k - 1) / 10 = n / 10 ^ k := by
    rw [Nat.div_div_eq_div_mul, ← pow_succ, Nat.sub_add_cancel hk1]
  have hmod := Nat.div_add_mod (n / 10 ^ (k - 1)) 10
  rw [List.getD_eq_getElem?_getD, List.getElem?_eq_getElem hi]
  simp only [Option.getD_some]
  simp only [List.get_eq_getElem] at h1
  omega

theorem ofDigits_incLE (l : List Nat) (h : ∀ d ∈ l, d < 10) :
    Nat.ofDigits 10 (incLE l) = Nat.ofDigits 10 l + 1 := by
  induction l with
  | nil => simp [incLE, Nat.ofDigits]
  | cons d ds ih =>
    have ihds := ih (fun e he => h e (List.mem_cons_of_mem d he))
    by_cases hd : d < 9
    · rw [show incLE (d :: ds) = (d + 1) :: ds from by rw [incLE, if_pos hd]]
      rw [Nat.ofDigits_cons, Nat.ofDigits_cons]
      omega
    · have hd9 : d = 9 := by
        have := h d (List.mem_cons_self d ds)
        omega
      rw [show incLE (d :: ds) = 0 :: incLE ds from by rw [incLE, if_neg hd]]
      rw [Nat.ofDigits_cons, Nat.ofDigits_cons, ihds, hd9]
      omega

end Decimals

namespace Decimals

theorem pow10_half (pw : Nat) (h : 1 ≤ pw) : (10 : Nat) ^ pw / 2 = 5 * 10 ^ (pw - 1) := by
  conv_lhs => rw [show pw = pw - 1 + 1 by omega]
  rw [pow_succ]
  omega

theorem roundHalfUp_down (n m : Nat) (hm : 0 < m) (h : n % m + m / 2 < m) :
    roundHalfUp n m = n / m * m := by
  unfold roundHalfUp
  have hn := Nat.div_add_mod n m
  have : n + m / 2 = m * (n / m) + (n % m + m / 2) := by omega
  rw [this, Nat.mul_add_div hm, Nat.div_eq_of_lt h, Nat.add_zero]

theorem roundHalfUp_up (n m : Nat) (hm : 0 < m) (h : m ≤ n % m + m / 2) :
    roundHalfUp n m = (n / m + 1) * m := by
  unfold roundHalfUp
  have hn := Nat.div_add_mod n m
  have hmod : n % m < m := Nat.mod_lt n hm
  have hhalf : m / 2 ≤ m := Nat.div_le_self m 2
  have h2 : n + m / 2 = m * (n / m) + (n % m + m / 2) := by omega
  rw [h2, Nat.mul_add_div hm]
  have h3 : (n % m + m / 2) / m = 1 := by
    apply Nat.div_eq_of_lt_le
    · omega
    · omega
  rw [h3]

theorem roundHalfUp_mono (m : Nat) {a b : Nat} (h : a ≤ b) :
    roundHalfUp a m ≤ roundHalfUp b m :=
  Nat.mul_le_mul_right m (Nat.div_le_div_right (by omega))

theorem dvd_roundHalfUp (n m : Nat) : m ∣ roundHalfUp n m :=
  dvd_mul_left m ((n + m / 2) / m)

theorem roundHalfUp_mul (a m : Nat) (hm : 2 ≤ m) : roundHalfUp (a * m) m = a * m := by
  unfold roundHalfUp
  rw [show a * m = m * a by ring, Nat.mul_add_div (by omega),
    Nat.div_eq_of_lt (Nat.div_lt_self (by omega) (by omega)), Nat.add_zero, Nat.mul_comm]

end Decimals

namespace Decimals

theorem headD_eq_getD (l : List Nat) (d : Nat) : l.headD d = l.getD 0 d := by
  cases l <;> rfl

theorem idealRound_def (x p : Int) :
    idealRound x p = if x < 0 then -(roundHalfUp x.natAbs (10 ^ (-p).toNat) : Int)
      else (roundHalfUp x.natAbs (10 ^ (-p).toNat) : Int) := rfl

/-- The digit-rewriting rounder agrees with arithmetic round-half-up followed by
int64 saturation: for negative precision, RoundInt x p is the magnitude of x
rounded half-up to a multiple of 10 ^ (-p), the sign of x restored, clamped to
the int64 range. -/
theorem roundInt_eq_clamp (x p : Int) (hp : p < 0) :
    RoundInt x p = parseIntClamp (idealRound x p) := by
  have hnp : ¬ p > -1 := by omega
  unfold RoundInt
  rw [if_neg hnp, idealRound_def]
  have hpwpos : 0 < (-p).toNat := by omega
  have hpInt : (((-p).toNat : Nat) : Int) = -p := Int.toNat_of_nonneg (by omega)
  set pw := (-p).toNat with hpw
  set n := x.natAbs with hn
  have hmhalf : (10 : Nat) ^ pw / 2 = 5 * 10 ^ (pw - 1) := pow10_half pw hpwpos
  have hmten : (10 : Nat) ^ pw = 10 * 10 ^ (pw - 1) := by
    conv_lhs => rw [show pw = pw - 1 + 1 by omega]
    rw [pow_succ]
    ring
  have hapos : 0 < (10 : Nat) ^ (pw - 1) := Nat.pos_pow_of_pos _ (by norm_num)
  have hmpos : 0 < (10 : Nat) ^ pw := by omega
  have hlenpos : 0 < (decDigits n).length := decDigits_len_pos n
  have hnlt : n < 10 ^ (decDigits n).length := lt_pow_len n
  by_cases hb1 : ((decDigits n).length : Int) + p < 0
  · rw [if_pos hb1]
    have hlen1 : (decDigits n).length ≤ pw - 1 := by omega
    have h1 : (10 : Nat) ^ (decDigits n).length ≤ 10 ^ (pw - 1) :=
      Nat.pow_le_pow_right (by norm_num) hlen1
    have hnm : n < 10 ^ pw := by omega
    have hrhu : roundHalfUp n (10 ^ pw) = 0 := by
      rw [roundHalfUp_down n (10 ^ pw) hmpos (by rw [Nat.mod_eq_of_lt hnm]; omega),
        Nat.div_eq_of_lt hnm, Nat.zero_mul]
    rw [hrhu]
    norm_num [parseIntClamp, maxInt64, minInt64]
  · rw [if_neg hb1]
    by_cases hb2 : ((decDigits n).length : Int) + p = 0
    · rw [if_pos hb2]
      have hlenpw : (decDigits n).length = pw := by omega
      have hhead : (decDigits n).headD 0 = n / 10 ^ ((decDigits n).length - 1) % 10 := by
        rw [headD_eq_getD]
        nth_rewrite 1 [show (0 : Nat) = (decDigits n).length - (decDigits n).length by omega]
        exact getD_decDigits n (decDigits n).length (by omega) (by omega)
      have hnm : n < 10 ^ pw := by rw [← hlenpw]; exact hnlt
      have hdivlt : n / 10 ^ ((decDigits n).length - 1) < 10 := by
        apply Nat.div_lt_of_lt_mul
        rw [← pow_succ, show (decDigits n).length - 1 + 1 = (decDigits n).length by omega]
        exact hnlt
      have hmod10 : n / 10 ^ ((decDigits n).length - 1) % 10
          = n / 10 ^ ((decDigits n).length - 1) := Nat.mod_eq_of_lt hdivlt
      have hpw1 : (decDigits n).length - 1 = pw - 1 := by omega
      by_cases hb3 : (decDigits n).headD 0 < 5
      · rw [if_pos hb3]
        have h5 : n / 10 ^ (pw - 1) < 5 := by
          rw [← hpw1]
          omega
        have hlt : n < 5 * 10 ^ (pw - 1) := (Nat.div_lt_iff_lt_mul hapos).mp h5
        have hrhu : roundHalfUp n (10 ^ pw) = 0 := by
          rw [roundHalfUp_down n (10 ^ pw) hmpos (by rw [Nat.mod_eq_of_lt hnm]; omega),
            Nat.div_eq_of_lt hnm, Nat.zero_mul]
        rw [hrhu]
        norm_num [parseIntClamp, maxInt64, minInt64]
      · rw [if_neg hb3]
        have h5 : 5 ≤ n / 10 ^ (pw - 1) := by
          rw [← hpw1]
          omega
        have hge : 5 * 10 ^ (pw - 1) ≤ n := by
          have := (Nat.le_div_iff_mul_le hapos).mp h5
          omega
        have hrhu : roundHalfUp n (10 ^ pw) = 10 ^ pw := by
          rw [roundHalfUp_up n (10 ^ pw) hmpos (by rw [Nat.mod_eq_of_lt hnm]; omega),
            Nat.div_eq_of_lt hnm]
          ring
        have hval : valMSB (1 :: List.replicate (decDigits n).length 0) = 10 ^ pw := by
          rw [show (1 :: List.replicate (decDigits n).length 0)
              = [1] ++ List.replicate (decDigits n).length 0 from rfl,
            valMSB_append_zeros, hlenpw]
          simp [valMSB, Nat.ofDigits]
        rw [signParse, hval, hrhu]
    · rw [if_neg hb2]
      have hpwlt : pw < (decDigits n).length := by omega
      have hrf : (((decDigits n).length : Int) + p).toNat = (decDigits n).length - pw := by
        omega
      rw [hrf]
      have hdig : (decDigits n).getD ((decDigits n).length - pw) 0
          = n % 10 ^ pw / 10 ^ (pw - 1) := by
        rw [getD_decDigits n pw (by omega) (by omega)]
        rw [show (10 : Nat) ^ pw = 10 ^ (pw - 1) * 10 from by
          rw [← pow_succ]
          congr 1
          omega]
        exact (Nat.mod_mul_right_div_self n (10 ^ (pw - 1)) 10).symm
      have hmodlt : n % 10 ^ pw < 10 ^ pw := Nat.mod_lt n hmpos
      have hkeep : valMSB ((decDigits n).take ((decDigits n).length - pw)) = n / 10 ^ pw :=
        valMSB_take n pw (by omega)
      have hlenrf : (decDigits n).length - ((decDigits n).length - pw) = pw := by omega
      by_cases hb4 : (decDigits n).getD ((decDigits n).length - pw) 0 < 5
      · rw [if_pos hb4]
        have h5 : n % 10 ^ pw / 10 ^ (pw - 1) < 5 := by rw [← hdig]; exact hb4
        have hlt : n % 10 ^ pw < 5 * 10 ^ (pw - 1) := (Nat.div_lt_iff_lt_mul hapos).mp h5
        have hrhu : roundHalfUp n (10 ^ pw) = n / 10 ^ pw * 10 ^ pw :=
          roundHalfUp_down n (10 ^ pw) hmpos (by omega)
        rw [signParse, valMSB_append_zeros, hkeep, hrhu, hlenrf]
      · rw [if_neg hb4]
        have h5 : 5 ≤ n % 10 ^ pw / 10 ^ (pw - 1) := by
          rw [← hdig]
          omega
        have hge : 5 * 10 ^ (pw - 1) ≤ n % 10 ^ pw := by
          have := (Nat.le_div_iff_mul_le hapos).mp h5
          omega
        have hrhu : roundHalfUp n (10 ^ pw) = (n / 10 ^ pw + 1) * 10 ^ pw :=
          roundHalfUp_up n (10 ^ pw) hmpos (by omega)
        have hub : ∀ d ∈ ((decDigits n).take ((decDigits n).length - pw)).reverse, d < 10 := by
          intro d hd
          exact decDigits_lt n d (List.take_subset _ _ (List.mem_reverse.mp hd))
        have hinc : valMSB
            ((incLE ((decDigits n).take ((decDigits n).length - pw)).reverse).reverse)
            = n / 10 ^ pw + 1 := by
          rw [valMSB, List.reverse_reverse, ofDigits_incLE _ hub]
          rw [show Nat.ofDigits 10 ((decDigits n).take ((decDigits n).length - pw)).reverse
              = valMSB ((decDigits n).take ((decDigits n).length - pw)) from rfl, hkeep]
        rw [signParse, valMSB_append_zeros, hinc, hrhu, hlenrf]

end Decimals

namespace Decimals

theorem roundInt_id_of_nonneg (x p : Int) (hp : 0 ≤ p) : RoundInt x p = x := by
  unfold RoundInt
  rw [if_pos (by omega)]

theorem two_le_pow10 (pw : Nat) (h : 0 < pw) : 2 ≤ (10 : Nat) ^ pw := by
  calc (2 : Nat) ≤ 10 ^ 1 := by norm_num
  _ ≤ 10 ^ pw := Nat.pow_le_pow_right (by norm_num) (by omega)

theorem idealRound_dvd (x p : Int) :
    (((10 : Nat) ^ (-p).toNat : Nat) : Int) ∣ idealRound x p := by
  rw [idealRound_def]
  by_cases hx : x < 0
  · rw [if_pos hx]
    exact dvd_neg.mpr (Int.natCast_dvd_natCast.mpr (dvd_roundHalfUp _ _))
  · rw [if_neg hx]
    exact Int.natCast_dvd_natCast.mpr (dvd_roundHalfUp _ _)

theorem idealRound_of_dvd (r p : Int) (hp : p < 0)
    (hd : (((10 : Nat) ^ (-p).toNat : Nat) : Int) ∣ r) : idealRound r p = r := by
  obtain ⟨a, ha⟩ : (10 : Nat) ^ (-p).toNat ∣ r.natAbs := by
    have h1 := Int.natAbs_dvd_natAbs.mpr hd
    rwa [show ((10 ^ (-p).toNat : Nat) : Int).natAbs = 10 ^ (-p).toNat from rfl] at h1
  have hm2 : 2 ≤ (10 : Nat) ^ (-p).toNat := two_le_pow10 _ (by omega)
  have hfix : roundHalfUp r.natAbs (10 ^ (-p).toNat) = r.natAbs := by
    rw [ha, mul_comm, roundHalfUp_mul _ _ hm2, mul_comm]
  rw [idealRound_def]
  by_cases hx : r < 0
  · rw [if_pos hx, hfix]
    omega
  · rw [if_neg hx, hfix]
    omega

theorem roundInt_idem_aux (x p : Int) (hx1 : minInt64 ≤ x) (hx2 : x ≤ maxInt64) :
    RoundInt (RoundInt x p) p = RoundInt x p := by
  have hmaxv : maxInt64 = (9223372036854775807 : Int) := rfl
  have hminv : minInt64 = (-9223372036854775808 : Int) := rfl
  by_cases hp : 0 ≤ p
  · rw [roundInt_id_of_nonneg x p hp, roundInt_id_of_nonneg x p hp]
  · have hp0 : p < 0 := by omega
    rw [roundInt_eq_clamp x p hp0]
    by_cases h1 : maxInt64 < idealRound x p
    · have hcl : parseIntClamp (idealRound x p) = maxInt64 := by
        rw [parseIntClamp, if_pos h1]
      rw [hcl, roundInt_eq_clamp maxInt64 p hp0]
      have hx0 : 0 ≤ x := by
        by_contra hxn
        push_neg at hxn
        rw [idealRound_def, if_pos hxn] at h1
        have hnn : (0 : Int) ≤ (roundHalfUp x.natAbs (10 ^ (-p).toNat) : Int) :=
          Int.natCast_nonneg _
        omega
      have hxa : x.natAbs ≤ 9223372036854775807 := by omega
      have hmono := roundHalfUp_mono (10 ^ (-p).toNat) hxa
      have hidx : idealRound x p = (roundHalfUp x.natAbs (10 ^ (-p).toNat) : Int) := by
        rw [idealRound_def, if_neg (by omega)]
      have hidmax : idealRound maxInt64 p
          = (roundHalfUp 9223372036854775807 (10 ^ (-p).toNat) : Int) := by
        rw [idealRound_def, if_neg (by omega),
          show maxInt64.natAbs = 9223372036854775807 from rfl]
      have hover : maxInt64 < idealRound maxInt64 p := by
        rw [hidmax]
        rw [hidx] at h1
        omega
      rw [parseIntClamp, if_pos hover]
    · by_cases h2 : idealRound x p < minInt64
      · have hcl : parseIntClamp (idealRound x p) = minInt64 := by
          rw [parseIntClamp, if_neg (by omega), if_pos h2]
        rw [hcl, roundInt_eq_clamp minInt64 p hp0]
        have hxn : x < 0 := by
          by_contra hx0
          push_neg at hx0
          rw [idealRound_def, if_neg (by omega)] at h2
          have hnn : (0 : Int) ≤ (roundHalfUp x.natAbs (10 ^ (-p).toNat) : Int) :=
            Int.natCast_nonneg _
          omega
        have hxa : x.natAbs ≤ 9223372036854775808 := by omega
        have hmono := roundHalfUp_mono (10 ^ (-p).toNat) hxa
        have hidx : idealRound x p = -(roundHalfUp x.natAbs (10 ^ (-p).toNat) : Int) := by
          rw [idealRound_def, if_pos hxn]
        have hidmin : idealRound minInt64 p
            = -(roundHalfUp 9223372036854775808 (10 ^ (-p).toNat) : Int) := by
          rw [idealRound_def, if_pos (by omega),
            show minInt64.natAbs = 9223372036854775808 from rfl]
      
        have hunder : idealRound minInt64 p < minInt64 := by
          rw [hidmin]
          rw [hidx] at h2
          omega
        have hnotmax : ¬ maxInt64 < idealRound minInt64 p := by omega
        rw [parseIntClamp, if_neg hnotmax, if_pos hunder]
      · have hcl : parseIntClamp (idealRound x p) = idealRound x p := by
          rw [parseIntClamp, if_neg h1, if_neg h2]
        rw [hcl, roundInt_eq_clamp (idealRound x p) p hp0,
          idealRound_of_dvd (idealRound x p) p hp0 (idealRound_dvd x p), parseIntClamp,
          if_neg h1, if_neg h2]

end Decimals

namespace Decimals

theorem headD_decDigits (n : Nat) :
    (decDigits n).headD 0 = n / 10 ^ ((decDigits n).length - 1) := by
  have hlenpos := decDigits_len_pos n
  have hnlt := lt_pow_len n
  have hdivlt : n / 10 ^ ((decDigits n).length - 1) < 10 := by
    apply Nat.div_lt_of_lt_mul
    rw [← pow_succ, show (decDigits n).length - 1 + 1 = (decDigits n).length by omega]
    exact hnlt
  rw [headD_eq_getD]
  nth_rewrite 1 [show (0 : Nat) = (decDigits n).length - (decDigits n).length by omega]
  rw [getD_decDigits n (decDigits n).length (by omega) (by omega)]
  exact Nat.mod_eq_of_lt hdivlt

theorem idealRound_boundary (x p : Int) (hp : p < 0)
    (hlen : (-p) = ((decDigits x.natAbs).length : Int)) :
    idealRound x p = if (decDigits x.natAbs).headD 0 < 5 then 0
      else (if x < 0 then -((10 : Int) ^ (-p).toNat) else (10 : Int) ^ (-p).toNat) := by
  have hlenpos := decDigits_len_pos x.natAbs
  have hnlt := lt_pow_len x.natAbs
  have hpw : (-p).toNat = (decDigits x.natAbs).length := by omega
  have hhead := headD_decDigits x.natAbs
  have hapos : 0 < (10 : Nat) ^ ((decDigits x.natAbs).length - 1) :=
    Nat.pos_pow_of_pos _ (by norm_num)
  have hmpos : 0 < (10 : Nat) ^ (decDigits x.natAbs).length :=
    Nat.pos_pow_of_pos _ (by norm_num)
  have hmhalf : (10 : Nat) ^ (decDigits x.natAbs).length / 2
      = 5 * 10 ^ ((decDigits x.natAbs).length - 1) := pow10_half _ (by omega)
  have hmten : (10 : Nat) ^ (decDigits x.natAbs).length
      = 10 * 10 ^ ((decDigits x.natAbs).length - 1) := by
    conv_lhs => rw [show (decDigits x.natAbs).length = (decDigits x.natAbs).length - 1 + 1
      by omega]
    rw [pow_succ]
    ring
  have hmod : x.natAbs % 10 ^ (decDigits x.natAbs).length = x.natAbs :=
    Nat.mod_eq_of_lt hnlt
  by_cases hb : (decDigits x.natAbs).headD 0 < 5
  · rw [if_pos hb]
    have h5 : x.natAbs / 10 ^ ((decDigits x.natAbs).length - 1) < 5 := by omega
    have hlt : x.natAbs < 5 * 10 ^ ((decDigits x.natAbs).length - 1) :=
      (Nat.div_lt_iff_lt_mul hapos).mp h5
    have hrhu : roundHalfUp x.natAbs (10 ^ (-p).toNat) = 0 := by
      rw [hpw, roundHalfUp_down _ _ hmpos (by omega), Nat.div_eq_of_lt hnlt, Nat.zero_mul]
    rw [idealRound_def, hrhu]
    by_cases hx : x < 0
    · rw [if_pos hx]
      norm_num
    · rw [if_neg hx]
      norm_num
  · rw [if_neg hb]
    have h5 : 5 ≤ x.natAbs / 10 ^ ((decDigits x.natAbs).length - 1) := by omega
    have hge : 5 * 10 ^ ((decDigits x.natAbs).length - 1) ≤ x.natAbs := by
      have := (Nat.le_div_iff_mul_le hapos).mp h5
      omega
    have hrhu : roundHalfUp x.natAbs (10 ^ (-p).toNat) = 10 ^ (-p).toNat := by
      rw [hpw, roundHalfUp_up _ _ hmpos (by omega), Nat.div_eq_of_lt hnlt]
      ring
    rw [idealRound_def, hrhu]
    by_cases hx : x < 0
    · rw [if_pos hx, if_pos hx]
      push_cast
      ring
    · rw [if_neg hx, if_neg hx]
      push_cast
      ring

end Decimals

namespace Decimals

/-- C2: RoundInt satisfies the carry-cascade and sign test vectors:
RoundInt(999, -1) = 1000, RoundInt(995, -1) = 1000, RoundInt(994, -1) = 990,
and RoundInt(-555, -2) = -600. -/
theorem c2_test_vectors :
    RoundInt 999 (-1) = 1000 ∧ RoundInt 995 (-1) = 1000 ∧ RoundInt 994 (-1) = 990
      ∧ RoundInt (-555) (-2) = -600 := by
  refine ⟨?_, ?_, ?_, ?_⟩ <;>
    simp [RoundInt, decDigits, valMSB, signParse, parseIntClamp, incLE, maxInt64, minInt64,
      Nat.ofDigits]

/-- C4: for every int64 x and every precision ≥ 0, RoundInt returns x
unchanged. -/
theorem c4_nonneg_precision_identity (x p : Int) (hp : 0 ≤ p) : RoundInt x p = x :=
  roundInt_id_of_nonneg x p hp

/-- Witness for C4 at x = 555, precision = 0. -/
theorem c4_witness : RoundInt 555 0 = 555 :=
  c4_nonneg_precision_identity 555 0 (by norm_num)

end Decimals

namespace Decimals

/-- C1 counterexample: at x = 9223372036854775807 (math.MaxInt64) and
precision -1 the rounded digit string exceeds the int64 range, ParseInt
saturates, and the returned magnitude is not a multiple of 10^1. -/
theorem c1_counterexample :
    RoundInt 9223372036854775807 (-1) = 9223372036854775807
      ∧ ¬ ((10 : Int) ^ (1 : Nat) ∣ 9223372036854775807) := by
  constructor
  · simp [RoundInt, decDigits, valMSB, signParse, parseIntClamp, incLE, maxInt64, minInt64,
      Nat.ofDigits]
  · norm_num

/-- C1 (amended): for every int64 x and every precision < 0 the result of
RoundInt is a multiple of 10^(-precision), except when it saturates at the
int64 bounds, in which case it is MaxInt64 or MinInt64. -/
theorem c1_multiple_unless_saturated (x p : Int) (hp : p < 0) :
    RoundInt x p = maxInt64 ∨ RoundInt x p = minInt64
      ∨ ((10 : Int) ^ (-p).toNat ∣ RoundInt x p) := by
  rw [roundInt_eq_clamp x p hp, parseIntClamp]
  by_cases h1 : idealRound x p > maxInt64
  · rw [if_pos h1]
    left
    rfl
  · rw [if_neg h1]
    by_cases h2 : idealRound x p < minInt64
    · rw [if_pos h2]
      right
      left
      rfl
    · rw [if_neg h2]
      right
      right
      have hd := idealRound_dvd x p
      push_cast at hd
      exact hd

/-- Witness for C1 at x = 995, precision = -1. -/
theorem c1_witness :
    RoundInt 995 (-1) = maxInt64 ∨ RoundInt 995 (-1) = minInt64
      ∨ ((10 : Int) ^ ((-(-1) : Int)).toNat ∣ RoundInt 995 (-1)) :=
  c1_multiple_unless_saturated 995 (-1) (by norm_num)

/-- C3 counterexample: x = 5000000000000000000 has 19 decimal digits and
leading digit 5, and with precision -19 the claim predicts 10^19; the code
instead saturates at MaxInt64 = 9223372036854775807. -/
theorem c3_counterexample :
    ((-(-19 : Int)) = ((decDigits (5000000000000000000 : Int).natAbs).length : Int))
      ∧ (decDigits (5000000000000000000 : Int).natAbs).headD 0 = 5
      ∧ RoundInt 5000000000000000000 (-19) = 9223372036854775807
      ∧ (9223372036854775807 : Int) ≠ 10 ^ (19 : Nat) := by
  refine ⟨?_, ?_, ?_, ?_⟩
  · simp [decDigits]
  · simp [decDigits]
  · simp [RoundInt, decDigits, valMSB, signParse, parseIntClamp, incLE, maxInt64, minInt64,
      Nat.ofDigits]
  · norm_num

/-- C3 (amended): for every nonzero int64 x and precision < 0 such that
-precision equals the number of decimal digits of the magnitude of x, RoundInt
returns 0 when the leading digit is below 5 and otherwise 10^(-precision) with
the sign of x reapplied, saturated to the int64 bounds; in particular
RoundInt(4, -1) = 0 and RoundInt(5, -1) = 10. -/
theorem c3_magnitude_boundary :
    (∀ x p : Int, x ≠ 0 → p < 0 → (-p) = ((decDigits x.natAbs).length : Int) →
      RoundInt x p = if (decDigits x.natAbs).headD 0 < 5 then 0
        else parseIntClamp (if x < 0 then -((10 : Int) ^ (-p).toNat)
          else (10 : Int) ^ (-p).toNat))
      ∧ RoundInt 4 (-1) = 0 ∧ RoundInt 5 (-1) = 10 := by
  refine ⟨?_, ?_, ?_⟩
  · intro x p hx hp hlen
    rw [roundInt_eq_clamp x p hp, idealRound_boundary x p hp hlen]
    by_cases hb : (decDigits x.natAbs).headD 0 < 5
    · rw [if_pos hb, if_pos hb]
      norm_num [parseIntClamp, maxInt64, minInt64]
    · rw [if_neg hb, if_neg hb]
  · simp [RoundInt, decDigits, valMSB, signParse, parseIntClamp, incLE, maxInt64, minInt64,
      Nat.ofDigits]
  · simp [RoundInt, decDigits, valMSB, signParse, parseIntClamp, incLE, maxInt64, minInt64,
      Nat.ofDigits]

/-- Witness for C3 at x = 5, precision = -1: one digit, leading digit 5, so
the result is the clamp of 10^1 = 10. -/
theorem c3_witness :
    RoundInt 5 (-1) = if (decDigits (5 : Int).natAbs).headD 0 < 5 then 0
      else parseIntClamp (if (5 : Int) < 0 then -((10 : Int) ^ ((-(-1) : Int)).toNat)
        else (10 : Int) ^ ((-(-1) : Int)).toNat) :=
  c3_magnitude_boundary.1 5 (-1) (by norm_num) (by norm_num) (by simp [decDigits])

/-- C5: RoundInt is idempotent at a fixed precision: rounding an
already-rounded int64 at the same precision returns it unchanged. -/
theorem c5_idempotent (x p : Int) (hx1 : minInt64 ≤ x) (hx2 : x ≤ maxInt64) :
    RoundInt (RoundInt x p) p = RoundInt x p :=
  roundInt_idem_aux x p hx1 hx2

/-- Witness for C5 at x = 995, precision = -1. -/
theorem c5_witness : RoundInt (RoundInt 995 (-1)) (-1) = RoundInt 995 (-1) :=
  c5_idempotent 995 (-1) (by norm_num [minInt64]) (by norm_num [maxInt64])

/-- C9: when the ideally rounded value falls outside the int64 range, RoundInt
returns the saturated bound MaxInt64 or MinInt64 (the ParseInt range error is
discarded and the clamped value returned); in particular at
x = 9223372036854775807 and precision -1 the result is MaxInt64. -/
theorem c9_saturation :
    (∀ x p : Int, p < 0 → maxInt64 < idealRound x p → RoundInt x p = maxInt64)
      ∧ (∀ x p : Int, p < 0 → idealRound x p < minInt64 → RoundInt x p = minInt64)
      ∧ RoundInt maxInt64 (-1) = maxInt64 := by
  refine ⟨?_, ?_, ?_⟩
  · intro x p hp h
    rw [roundInt_eq_clamp x p hp, parseIntClamp, if_pos h]
  · intro x p hp h
    have hnot : ¬ maxInt64 < idealRound x p := by
      have hlt : minInt64 < maxInt64 := by norm_num [minInt64, maxInt64]
      omega
    rw [roundInt_eq_clamp x p hp, parseIntClamp, if_neg hnot, if_pos h]
  · simp [RoundInt, decDigits, valMSB, signParse, parseIntClamp, incLE, maxInt64, minInt64,
      Nat.ofDigits]

/-- Witness for C9 at x = MaxInt64, precision = -1, where the ideal rounded
value 9223372036854775810 exceeds MaxInt64. -/
theorem c9_witness : RoundInt maxInt64 (-1) = maxInt64 :=
  c9_saturation.1 maxInt64 (-1) (by norm_num)
    (by norm_num [idealRound_def, roundHalfUp, maxInt64])

end Decimals

namespace Decimals

theorem commaRev_append (c : Nat) : ∀ (l t : List Char), 3 * c ≤ l.length →
    commaRev (l ++ t) c = commaRev l c ++ t := by
  induction c with
  | zero => intro l t h; rfl
  | succ c ih =>
    intro l t h
    rw [commaRev, commaRev]
    rw [List.take_append_of_le_length (by omega), List.drop_append_of_le_length (by omega)]
    rw [ih (l.drop 3) t (by simp [List.length_drop]; omega)]
    simp

theorem commaRev_spec_aux : ∀ (N : Nat) (l : List Char), l.length ≤ N →
    commaRev l ((l.length - 1) / 3) = specGroupRev l := by
  intro N
  induction N with
  | zero =>
    intro l hl
    have hnil : l = [] := List.length_eq_zero.mp (by omega)
    subst hnil
    rw [specGroupRev]
    rfl
  | succ N ih =>
    intro l hl
    by_cases h3 : l.length ≤ 3
    · have hc : (l.length - 1) / 3 = 0 := by omega
      rw [hc, commaRev, specGroupRev, if_pos h3]
    · push_neg at h3
      have hc : (l.length - 1) / 3 = (l.length - 4) / 3 + 1 := by omega
      rw [hc, commaRev]
      have hdlen : (l.drop 3).length = l.length - 3 := List.length_drop 3 l
      have harg : ((l.drop 3).length - 1) / 3 = (l.length - 4) / 3 := by omega
      rw [← harg, ih (l.drop 3) (by omega)]
      conv_rhs => rw [specGroupRev]
      rw [if_neg (by omega)]

theorem commaRev_eq_spec (l : List Char) :
    commaRev l ((l.length - 1) / 3) = specGroupRev l :=
  commaRev_spec_aux l.length l (le_refl _)

theorem formatThousands_eq_spec (x : Int) : FormatThousands x = specFormatThousands x := by
  unfold FormatThousands specFormatThousands
  dsimp only
  by_cases hx : x < 0
  · rw [intChars, if_pos hx, if_pos hx]
    have hlen : ('-' :: decChars x.natAbs).length = (decChars x.natAbs).length + 1 := rfl
    rw [hlen]
    have hc : ((decChars x.natAbs).length + 1 - 2) / 3 = ((decChars x.natAbs).length - 1) / 3 :=
      by omega
    rw [hc]
    rw [List.reverse_cons]
    rw [commaRev_append _ _ _ (by simp [List.length_reverse]; omega)]
    rw [show ((decChars x.natAbs).length - 1) / 3
        = ((decChars x.natAbs).reverse.length - 1) / 3 from by rw [List.length_reverse]]
    rw [commaRev_eq_spec]
    simp [hx]
  · rw [intChars, if_neg hx, if_neg hx]
    rw [show ((decChars x.natAbs).length - 1) / 3
        = ((decChars x.natAbs).reverse.length - 1) / 3 from by rw [List.length_reverse]]
    rw [commaRev_eq_spec]
    simp [hx]

end Decimals

namespace Decimals

/-- C8: FormatThousands produces the base-ten digit string of x with a comma
every three digits counted from the least-significant digit and a leading
minus sign exactly when x is negative; in particular
FormatThousands(-1234) = "-1,234" and FormatThousands(0) = "0" with no
spurious sign. -/
theorem c8_formatThousands_grouping :
    (∀ x : Int, FormatThousands x = specFormatThousands x)
      ∧ FormatThousands (-1234) = "-1,234" ∧ FormatThousands 0 = "0" := by
  refine ⟨formatThousands_eq_spec, ?_, ?_⟩
  · simp [FormatThousands, intChars, decChars, decDigits, digitChar, decimalBytes, commaRev]
  · simp [FormatThousands, intChars, decChars, decDigits, digitChar, decimalBytes, commaRev]

/-- C6: for every precision < 0, RoundFloat truncates its argument toward zero
(the fractional part is discarded before any rounding) and delegates to
RoundInt at the same precision, returning the result as a float; in particular
RoundFloat(-0.6, -1) = 0, not -10 and not -1. -/
theorem c6_roundFloat_neg_precision :
    (∀ (x : ℚ) (p : Int), p < 0 → RoundFloat x p = ((RoundInt (modfTrunc x) p : Int) : ℚ))
      ∧ RoundFloat (-(6 / 10) : ℚ) (-1) = 0
      ∧ RoundFloat (-(6 / 10) : ℚ) (-1) ≠ -10
      ∧ RoundFloat (-(6 / 10) : ℚ) (-1) ≠ -1 := by
  have heval : RoundFloat (-(6 / 10) : ℚ) (-1) = 0 := by
    have htr : modfTrunc (-(6 / 10) : ℚ) = 0 := by
      rw [modfTrunc, if_pos (by norm_num)]
      norm_num
    unfold RoundFloat
    rw [if_pos (by norm_num), htr]
    norm_num [RoundInt, decDigits, valMSB, signParse, parseIntClamp, incLE, maxInt64,
      minInt64, Nat.ofDigits]
  refine ⟨?_, heval, ?_, ?_⟩
  · intro x p hp
    unfold RoundFloat
    rw [if_pos hp]
  · rw [heval]
    norm_num
  · rw [heval]
    norm_num

/-- Witness for C6 at x = 1/2, precision = -1. -/
theorem c6_witness :
    RoundFloat (1 / 2 : ℚ) (-1) = ((RoundInt (modfTrunc (1 / 2 : ℚ)) (-1) : Int) : ℚ) :=
  c6_roundFloat_neg_precision.1 (1 / 2) (-1) (by norm_num)

end Decimals

namespace Decimals

/-- C7: at x = 0.5 — exactly representable in binary64, so the
FormatFloat/ParseFloat round trip involves no representation error — and
precision 0, the scaled value is an exact tie and the FormatFloat-based
rounding of decimals.go sends it to the even neighbour: RoundFloat(0.5, 0) = 0,
not 1 as round-half-away-from-zero (the spec's stated rule, and the behaviour
of the alternative float-scaling implementation) requires. -/
theorem c7_half_even_at_tie :
    RoundFloat (1 / 2 : ℚ) 0 = 0 ∧ RoundFloat (1 / 2 : ℚ) 0 ≠ 1 := by
  have heval : RoundFloat (1 / 2 : ℚ) 0 = 0 := by
    unfold RoundFloat
    rw [if_neg (by norm_num)]
    norm_num [roundHalfEven]
  refine ⟨heval, ?_⟩
  rw [heval]
  norm_num

end Decimals
